import Mathlib

/-!
Verification of the FDX (Final Draft XML) screenplay parser
(`screenplain/parsers/fdx.py`): the paragraph classification-and-merge
state machine, and its structured-format front-end.

The repository modules `screenplain/types.py` (the document model:
`Slug`, `Action`, `Dialog`, `Transition`, `Screenplay`) and
`screenplain/richstring.py` (`parse_emphasis`) are not part of the
sources under verification; they are modelled from the specification's
data model (spec sections 3 and 4.1), as noted on each such definition.

Python string primitives (`strip`, `rstrip`, `upper`, `split`) are
embedded as functions on Lean `String` (a list of characters), scoped to
the ASCII behaviour the parser exercises.
-/

namespace Screenplain

/-! ## Python string primitives -/

/-- Python `str.strip()`: remove leading and trailing whitespace. -/
def pyStrip (s : String) : String :=
  ⟨(s.data.dropWhile Char.isWhitespace).rdropWhile Char.isWhitespace⟩

/-- Python `str.rstrip()`: remove trailing whitespace. -/
def pyRStrip (s : String) : String :=
  ⟨s.data.rdropWhile Char.isWhitespace⟩

/-- Python `str.upper()`: upper-case every character (ASCII scope). -/
def pyUpper (s : String) : String :=
  ⟨s.data.map Char.toUpper⟩

/-- Split a character list on every occurrence of the separator
character; the result always has one more part than there are
separators, and empty parts are kept (Python `str.split(sep)`
semantics for a one-character separator). -/
def splitOnChar (c : Char) : List Char → List (List Char)
  | [] => [[]]
  | x :: xs =>
    match splitOnChar c xs with
    | [] => [[]]
    | h :: t => if x = c then [] :: h :: t else (x :: h) :: t

/-- Python `line.split(c)` for a single-character separator. -/
def pySplit (s : String) (c : Char) : List String :=
  (splitOnChar c s.data).map (fun l => ⟨l⟩)

/-- Python `str.startswith(pre)`. -/
def pyStartsWith (s pre : String) : Bool :=
  pre.data.isPrefixOf s.data

/-! ## Character-level facts -/

theorem char_eq_iff_toNat {c d : Char} : c = d ↔ c.toNat = d.toNat := by
  constructor
  · rintro rfl; rfl
  · intro h
    have h2 := congrArg Char.ofNat h
    rwa [Char.ofNat_toNat, Char.ofNat_toNat] at h2

theorem toNat_ofNat_of_lt {n : Nat} (h : n < 55296) : (Char.ofNat n).toNat = n := by
  have hv : n.isValidChar := Or.inl h
  rw [Char.ofNat, dif_pos hv]
  simp [Char.ofNatAux, Char.toNat, UInt32.toNat]

theorem isWhitespace_iff {c : Char} :
    c.isWhitespace = true ↔ c.toNat = 32 ∨ c.toNat = 9 ∨ c.toNat = 13 ∨ c.toNat = 10 := by
  simp only [Char.isWhitespace, Bool.or_eq_true, decide_eq_true_eq, char_eq_iff_toNat]
  have h32 : (' ' : Char).toNat = 32 := rfl
  have h9 : ('\t' : Char).toNat = 9 := rfl
  have h13 : ('\r' : Char).toNat = 13 := rfl
  have h10 : ('\n' : Char).toNat = 10 := rfl
  rw [h32, h9, h13, h10]
  tauto

theorem toUpper_eq (c : Char) :
    c.toUpper = if 97 ≤ c.toNat ∧ c.toNat ≤ 122 then Char.ofNat (c.toNat - 32) else c := by
  rfl

/-- Upper-casing never turns a character into whitespace or back. -/
theorem isWhitespace_toUpper (c : Char) : c.toUpper.isWhitespace = c.isWhitespace := by
  rw [toUpper_eq]
  by_cases h : 97 ≤ c.toNat ∧ c.toNat ≤ 122
  · rw [if_pos h]
    have h1 : (Char.ofNat (c.toNat - 32)).toNat = c.toNat - 32 :=
      toNat_ofNat_of_lt (by omega)
    have hL : (Char.ofNat (c.toNat - 32)).isWhitespace = false := by
      rw [Bool.eq_false_iff]
      intro hw
      rw [isWhitespace_iff] at hw
      omega
    have hR : c.isWhitespace = false := by
      rw [Bool.eq_false_iff]
      intro hw
      rw [isWhitespace_iff] at hw
      omega
    rw [hL, hR]
  · rw [if_neg h]

/-! ## String-level facts about strip and upper -/

/-- The head of a non-empty prefix is the head of the longer list. -/
theorem head_of_prefix {α : Type} {l m : List α} (h : l <+: m) {a : α} {t : List α}
    (hl : l = a :: t) : ∃ u, m = a :: u := by
  obtain ⟨r, hr⟩ := h
  subst hl
  exact ⟨t ++ r, by rw [← hr]; simp⟩

/-- Dropping leading whitespace is stable under a later drop of trailing
whitespace: the left end stays clean. -/
theorem dropWhile_rdropWhile_dropWhile (p : Char → Bool) (l : List Char) :
    ((l.dropWhile p).rdropWhile p).dropWhile p = (l.dropWhile p).rdropWhile p := by
  rcases h : (l.dropWhile p).rdropWhile p with _ | ⟨a, t⟩
  · simp
  · obtain ⟨u, hu⟩ := head_of_prefix (List.rdropWhile_prefix p (l.dropWhile p)) h
    have h1 := List.head_dropWhile_not p l
    rw [hu] at h1
    have hhead : p a = false := by simpa using h1 (by simp)
    simp [List.dropWhile_cons, hhead]

theorem pyStrip_idem (s : String) : pyStrip (pyStrip s) = pyStrip s := by
  unfold pyStrip
  apply congrArg String.mk
  show ((((s.data.dropWhile _).rdropWhile _).dropWhile _).rdropWhile _) = _
  rw [dropWhile_rdropWhile_dropWhile, List.rdropWhile_idempotent]

theorem rdropWhile_map_toUpper (l : List Char) :
    (l.map Char.toUpper).rdropWhile Char.isWhitespace =
      (l.rdropWhile Char.isWhitespace).map Char.toUpper := by
  unfold List.rdropWhile
  rw [← List.map_reverse, List.dropWhile_map, ← List.map_reverse]
  have : (Char.isWhitespace ∘ Char.toUpper) = Char.isWhitespace := by
    funext c
    exact isWhitespace_toUpper c
  rw [this]

theorem dropWhile_map_toUpper (l : List Char) :
    (l.map Char.toUpper).dropWhile Char.isWhitespace =
      (l.dropWhile Char.isWhitespace).map Char.toUpper := by
  rw [List.dropWhile_map]
  have : (Char.isWhitespace ∘ Char.toUpper) = Char.isWhitespace := by
    funext c
    exact isWhitespace_toUpper c
  rw [this]

/-- Stripping commutes with upper-casing. -/
theorem pyStrip_pyUpper (s : String) : pyStrip (pyUpper s) = pyUpper (pyStrip s) := by
  unfold pyStrip pyUpper
  apply congrArg String.mk
  show ((s.data.map _).dropWhile _).rdropWhile _ = _
  rw [dropWhile_map_toUpper, rdropWhile_map_toUpper]

/-- The character texts produced by the character rule are already
stripped: stripping an upper-cased stripped string changes nothing. -/
theorem pyStrip_pyUpper_pyStrip (s : String) :
    pyStrip (pyUpper (pyStrip s)) = pyUpper (pyStrip s) := by
  rw [pyStrip_pyUpper, pyStrip_idem]

/-! ## Document model -/

/-- Modelled from the spec: `screenplain/richstring.py` is not under the
sources; the spec (section 3) describes RichText as an ordered sequence of
styled spans whose concatenated literal text is the parsed input (section
4.1, with escape markers removed).  None of the claims depend on span
structure, so RichText is modelled by its literal text content. -/
structure RichString where
  text : String
deriving DecidableEq

/-- Modelled from the spec: `parse_emphasis` (section 4.1 `parse_spans`)
never rejects its input and is deterministic; modelled as the injection of
the literal text into the rich-text model. -/
def parse_emphasis (s : String) : RichString :=
  ⟨s⟩

/-- Modelled from the spec: Python `str(...)` applied to a rich string
yields its concatenated literal text. -/
def RichString.toStr (r : RichString) : String :=
  r.text

/-- Modelled from the spec (glossary): a parenthetical is a conventionally
parenthesized stage direction, so the dialogue-vs-parenthetical flag of a
stored block is derived from its text being parenthesized. -/
def is_parenthetical_line (r : RichString) : Bool :=
  pyStartsWith r.text "("

/-- Modelled from the spec: `screenplain/types.py` is not under the
sources; spec section 3 gives
`Dialog { character: RichText, blocks: sequence of (is_parenthetical, text) }`,
and `fdx.py` notes that the Dialog class makes the
dialogue-vs-parenthetical distinction for the lines handed to it. -/
structure Dialog where
  character : RichString
  blocks : List (Bool × RichString)
deriving DecidableEq

/-- Modelled from the spec: the `Dialog(character, lines)` constructor used
by `fdx.py`; each line is tagged by `is_parenthetical_line` and stored in
order.  `Dialog(character)` is `Dialog.create character []`. -/
def Dialog.create (character : RichString) (lines : List RichString) : Dialog :=
  ⟨character, lines.map (fun l => (is_parenthetical_line l, l))⟩

/-- Modelled from the spec: the closed tagged variant of screenplay
elements (spec section 3); `fdx.py` constructs exactly these four. -/
inductive ScreenplayElement where
  | slug (heading : RichString)
  | action (lines : List RichString)
  | dialog (d : Dialog)
  | transition (text : RichString)
deriving DecidableEq

/-- Modelled from the spec: the document container (spec section 3). -/
structure Screenplay where
  title : String
  elements : List ScreenplayElement
deriving DecidableEq

/-! ## The classifier, translated from `screenplain/parsers/fdx.py` -/

/-- Source `_sequence_to_rich`: converts a sequence of strings into a list
of RichString. -/
def sequence_to_rich (lines : List String) : List RichString :=
  lines.map (fun line => parse_emphasis line)

/-- Source `_string_to_rich`: converts a single string into a RichString. -/
def string_to_rich (line : String) : RichString :=
  parse_emphasis line

/-- Source `InputParagraph.__init__`: a typed block, the unit the
classifier consumes.  `lines_type` is the `Type` attribute of the XML
paragraph, which may be absent (`None`). -/
structure InputParagraph where
  lines_type : Option String
  lines : List String

/-- Source `InputParagraph.append_slug`: a declined rule returns `none`
(Python `False`); an accepted rule returns the updated list (Python
mutates and returns `True`).  The singleton pattern is the
`len(self.lines) != 1` guard. -/
def InputParagraph.append_slug (p : InputParagraph) (paragraphs : List ScreenplayElement) :
    Option (List ScreenplayElement) :=
  match p.lines with
  | [text] =>
    if p.lines_type = some "Scene Heading" ∨ p.lines_type = some "Shot" then
      some (paragraphs ++ [ScreenplayElement.slug (string_to_rich (pyUpper text))])
    else none
  | _ => none

/-- Source `InputParagraph.append_character`. -/
def InputParagraph.append_character (p : InputParagraph) (paragraphs : List ScreenplayElement) :
    Option (List ScreenplayElement) :=
  match p.lines with
  | [character] =>
    if p.lines_type = some "Character" then
      some (paragraphs ++
        [ScreenplayElement.dialog (Dialog.create (parse_emphasis (pyUpper (pyStrip character))) [])])
    else none
  | _ => none

/-- Source `InputParagraph.append_dialog`: Python pops the last element
(`dropLast`) and pushes the merged Dialog.  `current_lines` collects the
texts of the stored blocks (via `str`, their literal text) followed by the
incoming lines (`str` on a Python string is the identity). -/
def InputParagraph.append_dialog (p : InputParagraph) (paragraphs : List ScreenplayElement) :
    Option (List ScreenplayElement) :=
  if p.lines.length < 1 then none
  else if ¬ (p.lines_type = some "Dialogue" ∨ p.lines_type = some "Parenthetical") then none
  else
    match paragraphs.getLast? with
    | some (ScreenplayElement.dialog previous) =>
      let current_lines : List String :=
        previous.blocks.map (fun b => b.2.toStr) ++ p.lines
      some (paragraphs.dropLast ++
        [ScreenplayElement.dialog (Dialog.create
          (parse_emphasis (pyStrip previous.character.toStr))
          (sequence_to_rich (current_lines.map (fun line => pyStrip line))))])
    | _ => none

/-- Source `InputParagraph.append_transition`. -/
def InputParagraph.append_transition (p : InputParagraph) (paragraphs : List ScreenplayElement) :
    Option (List ScreenplayElement) :=
  match p.lines with
  | [text] =>
    if p.lines_type = some "Transition" then
      some (paragraphs ++ [ScreenplayElement.transition (string_to_rich (pyUpper text))])
    else none
  | _ => none

/-- Source `InputParagraph.append_action`: the unconditional fallback
(always returns `True`). -/
def InputParagraph.append_action (p : InputParagraph) (paragraphs : List ScreenplayElement) :
    List ScreenplayElement :=
  paragraphs ++ [ScreenplayElement.action (sequence_to_rich (p.lines.map (fun line => pyRStrip line)))]

/-- Source `InputParagraph.update_list`: the short-circuit `or` chain of
classification rules, tried strictly in priority order. -/
def InputParagraph.update_list (p : InputParagraph) (previous_paragraphs : List ScreenplayElement) :
    List ScreenplayElement :=
  match p.append_slug previous_paragraphs with
  | some result => result
  | none =>
  match p.append_character previous_paragraphs with
  | some result => result
  | none =>
  match p.append_dialog previous_paragraphs with
  | some result => result
  | none =>
  match p.append_transition previous_paragraphs with
  | some result => result
  | none => p.append_action previous_paragraphs

/-- A typed block as fed to the classifier: the type tag (possibly absent)
and the raw text lines. -/
abbrev Block := Option String × List String

/-- Processing a sequence of typed blocks in document order, starting from
a given accumulator (the classifier's single linear pass). -/
def runBlocks (blocks : List Block) (acc : List ScreenplayElement) : List ScreenplayElement :=
  blocks.foldl (fun acc b => (InputParagraph.mk b.1 b.2).update_list acc) acc

/-! ## The structured-format front-end, translated from `fdx.py` -/

/-- An XML `Text` element as seen through lxml: its `.text` may be `None`. -/
structure XmlText where
  text : Option String

/-- An XML `Paragraph` element: its `Type` attribute (absent gives `None`)
and its `Text` children in document order. -/
structure XmlParagraph where
  typeAttr : Option String
  texts : List XmlText

/-- The parsed XML document, seen through the only query `parse_body`
makes: `root.xpath("Content//Paragraph")` in document order. -/
structure FDXRoot where
  paragraphs : List XmlParagraph

/-- Source `parse_body` inner loop: `line = ""; for text in
para.xpath("Text"): if text.text: line += text.text`.  A missing or empty
text contributes nothing. -/
def paragraphText (texts : List XmlText) : String :=
  texts.foldl
    (fun line t =>
      match t.text with
      | some s => if s = "" then line else line ++ s
      | none => line)
    ""

/-- Source `parse_body`: skips the first structural paragraph and feeds
every remaining paragraph's typed block to the classifier. -/
def parse_body (root : FDXRoot) : List ScreenplayElement :=
  (root.paragraphs.drop 1).foldl
    (fun paragraphs para =>
      (InputParagraph.mk para.typeAttr (pySplit (paragraphText para.texts) '\n')).update_list
        paragraphs)
    []

/-- Source `parse_xml`: `etree.parse` either yields the document tree or
raises; the raising boundary is modelled by the source being an `Except`.
On success the result is a Screenplay with the fixed placeholder title. -/
def parse_xml (source : Except String FDXRoot) : Except String Screenplay :=
  match source with
  | Except.ok root => Except.ok ⟨"UNTITLED DOCUMENT", parse_body root⟩
  | Except.error e => Except.error e

/-- Source `parse`: the top-level entry, delegating to `parse_xml`. -/
def parse (stream : Except String FDXRoot) : Except String Screenplay :=
  parse_xml stream

/-! ## Basic facts about the classification rules -/

/-- A stored dialog block whose text is already stripped and whose flag
agrees with its text, as every block stored by the classifier is. -/
def goodBlock (b : Bool × RichString) : Prop :=
  pyStrip b.2.text = b.2.text ∧ b.1 = is_parenthetical_line b.2

/-- A Dialog whose character text is already stripped and whose stored
blocks are all good, as every Dialog built by the classifier is. -/
def goodDialog (d : Dialog) : Prop :=
  pyStrip d.character.text = d.character.text ∧ ∀ b ∈ d.blocks, goodBlock b

def goodElem : ScreenplayElement → Prop
  | ScreenplayElement.dialog d => goodDialog d
  | _ => True

def goodAcc (acc : List ScreenplayElement) : Prop :=
  ∀ e ∈ acc, goodElem e

theorem append_slug_eq_none (p : InputParagraph) (paragraphs : List ScreenplayElement)
    (h : ¬ (p.lines_type = some "Scene Heading" ∨ p.lines_type = some "Shot")) :
    p.append_slug paragraphs = none := by
  unfold InputParagraph.append_slug
  split
  · rw [if_neg h]
  · rfl

theorem append_character_eq_none (p : InputParagraph) (paragraphs : List ScreenplayElement)
    (h : p.lines_type ≠ some "Character") :
    p.append_character paragraphs = none := by
  unfold InputParagraph.append_character
  split
  · rw [if_neg h]
  · rfl

theorem append_transition_eq_none (p : InputParagraph) (paragraphs : List ScreenplayElement)
    (h : p.lines_type ≠ some "Transition") :
    p.append_transition paragraphs = none := by
  unfold InputParagraph.append_transition
  split
  · rw [if_neg h]
  · rfl

theorem append_dialog_eq_none_of_tag (p : InputParagraph) (paragraphs : List ScreenplayElement)
    (h : ¬ (p.lines_type = some "Dialogue" ∨ p.lines_type = some "Parenthetical")) :
    p.append_dialog paragraphs = none := by
  unfold InputParagraph.append_dialog
  by_cases h1 : p.lines.length < 1
  · rw [if_pos h1]
  · rw [if_neg h1, if_pos h]

theorem append_dialog_eq_none_of_last (p : InputParagraph) (paragraphs : List ScreenplayElement)
    (h : ∀ d, paragraphs.getLast? ≠ some (ScreenplayElement.dialog d)) :
    p.append_dialog paragraphs = none := by
  unfold InputParagraph.append_dialog
  by_cases h1 : p.lines.length < 1
  · rw [if_pos h1]
  · rw [if_neg h1]
    by_cases h2 : ¬ (p.lines_type = some "Dialogue" ∨ p.lines_type = some "Parenthetical")
    · rw [if_pos h2]
    · rw [if_neg h2]
      split
      · rename_i previous heq
        exact absurd heq (h previous)
      · rfl

theorem append_slug_some {p : InputParagraph} {acc r : List ScreenplayElement}
    (h : p.append_slug acc = some r) :
    ∃ text, p.lines = [text] ∧
      r = acc ++ [ScreenplayElement.slug (string_to_rich (pyUpper text))] := by
  unfold InputParagraph.append_slug at h
  split at h
  · rename_i text heq
    split at h
    · exact ⟨text, heq, (Option.some.inj h).symm⟩
    · cases h
  · cases h

theorem append_character_some {p : InputParagraph} {acc r : List ScreenplayElement}
    (h : p.append_character acc = some r) :
    ∃ character, p.lines = [character] ∧
      r = acc ++ [ScreenplayElement.dialog
        (Dialog.create (parse_emphasis (pyUpper (pyStrip character))) [])] := by
  unfold InputParagraph.append_character at h
  split at h
  · rename_i character heq
    split at h
    · exact ⟨character, heq, (Option.some.inj h).symm⟩
    · cases h
  · cases h

theorem append_transition_some {p : InputParagraph} {acc r : List ScreenplayElement}
    (h : p.append_transition acc = some r) :
    ∃ text, p.lines = [text] ∧
      r = acc ++ [ScreenplayElement.transition (string_to_rich (pyUpper text))] := by
  unfold InputParagraph.append_transition at h
  split at h
  · rename_i text heq
    split at h
    · exact ⟨text, heq, (Option.some.inj h).symm⟩
    · cases h
  · cases h

theorem append_dialog_some {p : InputParagraph} {acc r : List ScreenplayElement}
    (h : p.append_dialog acc = some r) :
    ∃ previous, acc.getLast? = some (ScreenplayElement.dialog previous) ∧
      r = acc.dropLast ++ [ScreenplayElement.dialog (Dialog.create
        (parse_emphasis (pyStrip previous.character.toStr))
        (sequence_to_rich ((previous.blocks.map (fun b => b.2.toStr) ++ p.lines).map
          (fun line => pyStrip line))))] := by
  unfold InputParagraph.append_dialog at h
  by_cases h1 : p.lines.length < 1
  · rw [if_pos h1] at h
    cases h
  · rw [if_neg h1] at h
    by_cases h2 : ¬ (p.lines_type = some "Dialogue" ∨ p.lines_type = some "Parenthetical")
    · rw [if_pos h2] at h
      cases h
    · rw [if_neg h2] at h
      split at h
      · rename_i previous heq
        exact ⟨previous, heq, (Option.some.inj h).symm⟩
      · cases h

/-! ## Preservation of block goodness along the pass -/

theorem goodDialog_character_rule (c : String) :
    goodDialog (Dialog.create (parse_emphasis (pyUpper (pyStrip c))) []) := by
  constructor
  · exact pyStrip_pyUpper_pyStrip c
  · intro b hb
    simp [Dialog.create] at hb

theorem goodDialog_merge_rule (c : String) (lines : List String) :
    goodDialog (Dialog.create (parse_emphasis (pyStrip c))
      (sequence_to_rich (lines.map (fun line => pyStrip line)))) := by
  constructor
  · exact pyStrip_idem c
  · intro b hb
    simp only [Dialog.create, sequence_to_rich, List.map_map, List.mem_map,
      Function.comp] at hb
    obtain ⟨l, _, rfl⟩ := hb
    exact ⟨pyStrip_idem l, rfl⟩

theorem goodAcc_append {acc : List ScreenplayElement} {e : ScreenplayElement}
    (h : goodAcc acc) (he : goodElem e) : goodAcc (acc ++ [e]) := by
  intro x hx
  rcases List.mem_append.mp hx with hx | hx
  · exact h x hx
  · rw [List.mem_singleton.mp hx]
    exact he

theorem goodAcc_dropLast {acc : List ScreenplayElement} (h : goodAcc acc) :
    goodAcc acc.dropLast := by
  intro x hx
  exact h x (List.dropLast_subset acc hx)

/-- Every accumulator the classifier can produce from a good one is good:
characters and stored block texts are stripped, and every stored flag is
the one derived from its text. -/
theorem goodAcc_update_list (p : InputParagraph) (acc : List ScreenplayElement)
    (h : goodAcc acc) : goodAcc (p.update_list acc) := by
  unfold InputParagraph.update_list
  cases h1 : p.append_slug acc with
  | some r =>
    obtain ⟨text, -, rfl⟩ := append_slug_some h1
    exact goodAcc_append h trivial
  | none =>
  cases h2 : p.append_character acc with
  | some r =>
    obtain ⟨character, -, rfl⟩ := append_character_some h2
    exact goodAcc_append h (goodDialog_character_rule character)
  | none =>
  cases h3 : p.append_dialog acc with
  | some r =>
    obtain ⟨previous, -, rfl⟩ := append_dialog_some h3
    exact goodAcc_append (goodAcc_dropLast h)
      (goodDialog_merge_rule previous.character.toStr _)
  | none =>
  cases h4 : p.append_transition acc with
  | some r =>
    obtain ⟨text, -, rfl⟩ := append_transition_some h4
    exact goodAcc_append h trivial
  | none =>
    exact goodAcc_append h trivial

theorem runBlocks_nil (acc : List ScreenplayElement) : runBlocks [] acc = acc := rfl

theorem runBlocks_cons (b : Block) (blocks : List Block) (acc : List ScreenplayElement) :
    runBlocks (b :: blocks) acc =
      runBlocks blocks ((InputParagraph.mk b.1 b.2).update_list acc) := rfl

theorem runBlocks_pair_cons (t : Option String) (ls : List String) (blocks : List Block)
    (acc : List ScreenplayElement) :
    runBlocks ((t, ls) :: blocks) acc =
      runBlocks blocks ((InputParagraph.mk t ls).update_list acc) := rfl

theorem goodAcc_runBlocks (blocks : List Block) (acc : List ScreenplayElement)
    (h : goodAcc acc) : goodAcc (runBlocks blocks acc) := by
  induction blocks generalizing acc with
  | nil => exact h
  | cons b rest ih =>
    rw [runBlocks_cons]
    exact ih _ (goodAcc_update_list _ _ h)

theorem goodAcc_nil : goodAcc [] := by
  intro x hx
  cases hx

/-! ## The dialogue-continuation merge step -/

/-- The entries the merge step appends for the incoming block's lines:
each line is stripped, rich-text-parsed, and tagged. -/
def newEntries (lines : List String) : List (Bool × RichString) :=
  lines.map (fun l =>
    (is_parenthetical_line (parse_emphasis (pyStrip l)), parse_emphasis (pyStrip l)))

theorem newEntries_append (l1 l2 : List String) :
    newEntries (l1 ++ l2) = newEntries l1 ++ newEntries l2 :=
  List.map_append _ _ _

theorem goodBlock_newEntries {lines : List String} {b : Bool × RichString}
    (hb : b ∈ newEntries lines) : goodBlock b := by
  unfold newEntries at hb
  obtain ⟨l, -, rfl⟩ := List.mem_map.mp hb
  exact ⟨pyStrip_idem l, rfl⟩

theorem goodDialog_extend {d : Dialog} (hd : goodDialog d) (lines : List String) :
    goodDialog (Dialog.mk d.character (d.blocks ++ newEntries lines)) := by
  refine ⟨hd.1, ?_⟩
  intro b hb
  rcases List.mem_append.mp hb with h | h
  · exact hd.2 b h
  · exact goodBlock_newEntries h

/-- On a good tail Dialog, the Dialog the merge rule reconstructs keeps
the character and every stored block unchanged and appends the new
entries. -/
theorem merged_dialog_eq {d : Dialog} (hd : goodDialog d) (lines : List String) :
    Dialog.create (parse_emphasis (pyStrip d.character.toStr))
      (sequence_to_rich ((d.blocks.map (fun b => b.2.toStr) ++ lines).map
        (fun line => pyStrip line))) =
    Dialog.mk d.character (d.blocks ++ newEntries lines) := by
  obtain ⟨hc, hb⟩ := hd
  unfold Dialog.create sequence_to_rich newEntries RichString.toStr parse_emphasis
  congr 1
  · rw [hc]
  · simp only [List.map_append, List.map_map]
    congr 1
    conv_rhs => rw [← List.map_id d.blocks]
    apply List.map_congr_left
    intro b hbm
    obtain ⟨h1, h2⟩ := hb b hbm
    simp only [Function.comp, h1, id]
    rw [← h2]

theorem append_dialog_merge {tag : Option String} (lines : List String)
    (front : List ScreenplayElement) (d : Dialog)
    (htag : tag = some "Dialogue" ∨ tag = some "Parenthetical")
    (hlines : lines ≠ []) (hd : goodDialog d) :
    (InputParagraph.mk tag lines).append_dialog (front ++ [ScreenplayElement.dialog d]) =
      some (front ++ [ScreenplayElement.dialog
        (Dialog.mk d.character (d.blocks ++ newEntries lines))]) := by
  have hlen : ¬ ((InputParagraph.mk tag lines).lines.length < 1) := by
    have := List.length_pos.mpr hlines
    simp only [InputParagraph.lines]
    omega
  unfold InputParagraph.append_dialog
  rw [if_neg hlen, if_neg (not_not_intro htag)]
  simp only [List.getLast?_concat, List.dropLast_concat]
  rw [merged_dialog_eq ⟨hd.1, hd.2⟩ lines]

theorem update_list_merge {tag : Option String} (lines : List String)
    (front : List ScreenplayElement) (d : Dialog)
    (htag : tag = some "Dialogue" ∨ tag = some "Parenthetical")
    (hlines : lines ≠ []) (hd : goodDialog d) :
    (InputParagraph.mk tag lines).update_list (front ++ [ScreenplayElement.dialog d]) =
      front ++ [ScreenplayElement.dialog
        (Dialog.mk d.character (d.blocks ++ newEntries lines))] := by
  have hslug := append_slug_eq_none (InputParagraph.mk tag lines)
    (front ++ [ScreenplayElement.dialog d]) (by rcases htag with rfl | rfl <;> simp)
  have hchar := append_character_eq_none (InputParagraph.mk tag lines)
    (front ++ [ScreenplayElement.dialog d]) (by rcases htag with rfl | rfl <;> simp)
  have hdial := append_dialog_merge lines front d htag hlines hd
  unfold InputParagraph.update_list
  rw [hslug, hchar, hdial]

/-- The character rule: a single-line `Character` block always appends a
fresh Dialog with empty blocks, regardless of the accumulator. -/
theorem update_list_character (c : String) (acc : List ScreenplayElement) :
    (InputParagraph.mk (some "Character") [c]).update_list acc =
      acc ++ [ScreenplayElement.dialog
        (Dialog.create (parse_emphasis (pyUpper (pyStrip c))) [])] := by
  have hslug := append_slug_eq_none (InputParagraph.mk (some "Character") [c]) acc (by simp)
  have hchar : (InputParagraph.mk (some "Character") [c]).append_character acc =
      some (acc ++ [ScreenplayElement.dialog
        (Dialog.create (parse_emphasis (pyUpper (pyStrip c))) [])]) := by
    unfold InputParagraph.append_character
    simp
  unfold InputParagraph.update_list
  rw [hslug, hchar]

/-- Processing a sequence of dialogue/parenthetical blocks with a good
Dialog at the tail merges every line, in order, into that Dialog. -/
theorem runBlocks_dialog_seq (dlgs : List Block) (front : List ScreenplayElement)
    (d : Dialog) (hd : goodDialog d)
    (h : ∀ b ∈ dlgs, (b.1 = some "Dialogue" ∨ b.1 = some "Parenthetical") ∧ b.2 ≠ []) :
    runBlocks dlgs (front ++ [ScreenplayElement.dialog d]) =
      front ++ [ScreenplayElement.dialog
        (Dialog.mk d.character (d.blocks ++ newEntries (dlgs.flatMap (fun b => b.2))))] := by
  induction dlgs generalizing d with
  | nil => simp [runBlocks_nil, newEntries]
  | cons b rest ih =>
    obtain ⟨htag, hlines⟩ := h b (List.mem_cons_self b rest)
    rw [runBlocks_cons, update_list_merge b.2 front d htag hlines hd,
      ih (Dialog.mk d.character (d.blocks ++ newEntries b.2)) (goodDialog_extend hd b.2)
        (fun x hx => h x (List.mem_cons_of_mem b hx))]
    simp [newEntries_append, List.append_assoc]

theorem length_flatMap_eq_sum (dlgs : List Block) :
    (dlgs.flatMap (fun b => b.2)).length = (dlgs.map (fun b => b.2.length)).sum := by
  induction dlgs with
  | nil => rfl
  | cons b rest ih => simp [List.flatMap_cons, ih]

/-! ## The spec-side view of the front-end -/

/-- Spec-side text of a structural paragraph, following the spec's words:
the concatenation of the text content of every text-run child, a missing
or empty text run contributing the empty string. -/
def specParagraphText (para : XmlParagraph) : String :=
  String.join (para.texts.map (fun t => t.text.getD ""))

/-- Spec-side typed-block sequence of the input tree, following the
spec's words: skip the very first structural paragraph; for each
remaining paragraph take its type attribute as the type tag and split its
concatenated text on embedded line-break characters. -/
def specTypedBlocks (root : FDXRoot) : List Block :=
  (root.paragraphs.drop 1).map
    (fun para => (para.typeAttr, pySplit (specParagraphText para) '\n'))

theorem paragraphText_eq_join (texts : List XmlText) :
    paragraphText texts = String.join (texts.map (fun t => t.text.getD "")) := by
  suffices h : ∀ a : String,
      texts.foldl
        (fun line t =>
          match t.text with
          | some s => if s = "" then line else line ++ s
          | none => line) a =
      (texts.map (fun t => t.text.getD "")).foldl (fun r s => r ++ s) a by
    exact h ""
  induction texts with
  | nil => intro a; rfl
  | cons t ts ih =>
    intro a
    simp only [List.foldl_cons, List.map_cons]
    rw [ih]
    congr 1
    match ht : t.text with
    | none => simp
    | some s =>
      by_cases hs : s = ""
      · simp [hs]
      · simp [hs]

theorem runBlocks_specTypedBlocks (paras : List XmlParagraph) (acc : List ScreenplayElement) :
    runBlocks (paras.map (fun para => (para.typeAttr, pySplit (specParagraphText para) '\n'))) acc =
      paras.foldl
        (fun paragraphs para =>
          (InputParagraph.mk para.typeAttr
            (pySplit (paragraphText para.texts) '\n')).update_list paragraphs) acc := by
  induction paras generalizing acc with
  | nil => rfl
  | cons p ps ih =>
    simp only [List.map_cons, runBlocks_pair_cons, List.foldl_cons]
    rw [paragraphText_eq_join]
    exact ih _

/-! ## The claims -/

/-- C1: Merge completeness.  A single-line character cue followed by any
sequence of `Dialogue`/`Parenthetical` blocks with N total input lines
leaves exactly one Dialog at the tail of the accumulator, whose blocks
hold the N lines (stripped, rich-text-parsed) in the original input
order, none dropped or duplicated. -/
theorem C1_merge_completeness (acc : List ScreenplayElement) (c : String) (dlgs : List Block)
    (h : ∀ b ∈ dlgs, (b.1 = some "Dialogue" ∨ b.1 = some "Parenthetical") ∧ b.2 ≠ []) :
    ∃ d : Dialog,
      runBlocks ((some "Character", [c]) :: dlgs) acc = acc ++ [ScreenplayElement.dialog d] ∧
      d.blocks.map (fun b => b.2) =
        (dlgs.flatMap (fun b => b.2)).map (fun l => parse_emphasis (pyStrip l)) ∧
      d.blocks.length = (dlgs.map (fun b => b.2.length)).sum := by
  refine ⟨Dialog.mk (parse_emphasis (pyUpper (pyStrip c)))
    (newEntries (dlgs.flatMap (fun b => b.2))), ?_, ?_, ?_⟩
  · rw [runBlocks_pair_cons, update_list_character c acc,
      runBlocks_dialog_seq dlgs acc (Dialog.create (parse_emphasis (pyUpper (pyStrip c))) [])
        (goodDialog_character_rule c) h]
    rfl
  · simp [newEntries]
  · simp only [newEntries, List.length_map]
    exact length_flatMap_eq_sum dlgs

theorem C1_witness :
    ∃ d : Dialog,
      runBlocks ((some "Character", ["JOHN"]) ::
        [(some "Dialogue", ["Hello there."]), (some "Parenthetical", ["(smiling)"]),
          (some "Dialogue", ["How are you?"])]) [] = [] ++ [ScreenplayElement.dialog d] ∧
      d.blocks.map (fun b => b.2) =
        (([(some "Dialogue", ["Hello there."]), (some "Parenthetical", ["(smiling)"]),
          (some "Dialogue", ["How are you?"])] : List Block).flatMap
            (fun b => b.2)).map (fun l => parse_emphasis (pyStrip l)) ∧
      d.blocks.length =
        (([(some "Dialogue", ["Hello there."]), (some "Parenthetical", ["(smiling)"]),
          (some "Dialogue", ["How are you?"])] : List Block).map (fun b => b.2.length)).sum :=
  C1_merge_completeness [] "JOHN"
    [(some "Dialogue", ["Hello there."]), (some "Parenthetical", ["(smiling)"]),
      (some "Dialogue", ["How are you?"])] (by decide)

/-- C2: Blocks are append-only across merges.  For a reachable
accumulator whose tail is a Dialog, the dialogue-continuation rule
replaces it with a Dialog that keeps every previously stored block
unchanged (same flag, same text), in the same order, and appends the
incoming block's lines after them. -/
theorem C2_blocks_append_only (input : List Block) (tag : Option String) (lines : List String)
    (front : List ScreenplayElement) (d : Dialog)
    (hreach : runBlocks input [] = front ++ [ScreenplayElement.dialog d])
    (htag : tag = some "Dialogue" ∨ tag = some "Parenthetical")
    (hlines : lines ≠ []) :
    (InputParagraph.mk tag lines).update_list (front ++ [ScreenplayElement.dialog d]) =
      front ++ [ScreenplayElement.dialog
        (Dialog.mk d.character (d.blocks ++ newEntries lines))] := by
  have hgood : goodAcc (front ++ [ScreenplayElement.dialog d]) := by
    rw [← hreach]
    exact goodAcc_runBlocks input [] goodAcc_nil
  exact update_list_merge lines front d htag hlines
    (hgood (ScreenplayElement.dialog d) (by simp))

theorem C2_witness :
    (InputParagraph.mk (some "Parenthetical") ["(smiling)"]).update_list
      ([] ++ [ScreenplayElement.dialog (Dialog.mk ⟨"JOHN"⟩ [(false, ⟨"Hello there."⟩)])]) =
    [] ++ [ScreenplayElement.dialog
      (Dialog.mk ⟨"JOHN"⟩
        ([(false, ⟨"Hello there."⟩)] ++ newEntries ["(smiling)"]))] :=
  C2_blocks_append_only [(some "Character", ["JOHN"]), (some "Dialogue", ["Hello there."])]
    (some "Parenthetical") ["(smiling)"] []
    (Dialog.mk ⟨"JOHN"⟩ [(false, ⟨"Hello there."⟩)]) (by decide)
    (Or.inr rfl) (by decide)

/-- C3: Character carried unchanged through merges.  For a reachable
accumulator whose tail is a Dialog, the Dialog the dialogue-continuation
rule pushes has exactly the popped Dialog's character. -/
theorem C3_character_preserved (input : List Block) (tag : Option String) (lines : List String)
    (front : List ScreenplayElement) (d : Dialog)
    (hreach : runBlocks input [] = front ++ [ScreenplayElement.dialog d])
    (htag : tag = some "Dialogue" ∨ tag = some "Parenthetical")
    (hlines : lines ≠ []) :
    ∃ blocks, (InputParagraph.mk tag lines).update_list (front ++ [ScreenplayElement.dialog d]) =
      front ++ [ScreenplayElement.dialog (Dialog.mk d.character blocks)] := by
  have hgood : goodAcc (front ++ [ScreenplayElement.dialog d]) := by
    rw [← hreach]
    exact goodAcc_runBlocks input [] goodAcc_nil
  exact ⟨d.blocks ++ newEntries lines,
    update_list_merge lines front d htag hlines
      (hgood (ScreenplayElement.dialog d) (by simp))⟩

theorem C3_witness :
    ∃ blocks, (InputParagraph.mk (some "Dialogue") ["How are you?"]).update_list
      ([] ++ [ScreenplayElement.dialog (Dialog.mk ⟨"JOHN"⟩ [(false, ⟨"Hello there."⟩)])]) =
    [] ++ [ScreenplayElement.dialog (Dialog.mk ⟨"JOHN"⟩ blocks)] :=
  C3_character_preserved [(some "Character", ["JOHN"]), (some "Dialogue", ["Hello there."])]
    (some "Dialogue") ["How are you?"] []
    (Dialog.mk ⟨"JOHN"⟩ [(false, ⟨"Hello there."⟩)]) (by decide)
    (Or.inl rfl) (by decide)

/-- C4: Totality of classification with Action fallback.  A typed block
whose tag is none of the recognized tags (including an absent tag) always
becomes exactly one Action whose lines are the input lines, right-trimmed
and rich-text-parsed; classification never fails. -/
theorem C4_action_fallback_total (tag : Option String) (lines : List String)
    (acc : List ScreenplayElement)
    (h : tag ∉ ([some "Scene Heading", some "Shot", some "Character", some "Dialogue",
      some "Parenthetical", some "Transition"] : List (Option String))) :
    (InputParagraph.mk tag lines).update_list acc =
      acc ++ [ScreenplayElement.action
        (lines.map (fun line => parse_emphasis (pyRStrip line)))] := by
  simp only [List.mem_cons, List.not_mem_nil, or_false, not_or] at h
  obtain ⟨h1, h2, h3, h4, h5, h6⟩ := h
  have hs := append_slug_eq_none (InputParagraph.mk tag lines) acc (by tauto)
  have hc := append_character_eq_none (InputParagraph.mk tag lines) acc h3
  have hd := append_dialog_eq_none_of_tag (InputParagraph.mk tag lines) acc (by tauto)
  have ht := append_transition_eq_none (InputParagraph.mk tag lines) acc h6
  unfold InputParagraph.update_list
  rw [hs, hc, hd, ht]
  simp [InputParagraph.append_action, sequence_to_rich, List.map_map, Function.comp]

theorem C4_witness :
    (InputParagraph.mk (some "Unknown Tag") ["Some text.  "]).update_list [] =
      [] ++ [ScreenplayElement.action
        ((["Some text.  "] : List String).map (fun line => parse_emphasis (pyRStrip line)))] :=
  C4_action_fallback_total (some "Unknown Tag") ["Some text.  "] [] (by decide)

/-- C5: Slug rule.  A single-line block tagged `Scene Heading` or `Shot`
always appends exactly one Slug whose heading is the line upper-cased
first and then rich-text-parsed. -/
theorem C5_slug_rule (tag : Option String) (line : String) (acc : List ScreenplayElement)
    (h : tag = some "Scene Heading" ∨ tag = some "Shot") :
    (InputParagraph.mk tag [line]).update_list acc =
      acc ++ [ScreenplayElement.slug (parse_emphasis (pyUpper line))] := by
  have hs : (InputParagraph.mk tag [line]).append_slug acc =
      some (acc ++ [ScreenplayElement.slug (parse_emphasis (pyUpper line))]) := by
    show (if tag = some "Scene Heading" ∨ tag = some "Shot" then
        some (acc ++ [ScreenplayElement.slug (parse_emphasis (pyUpper line))])
      else none) = some (acc ++ [ScreenplayElement.slug (parse_emphasis (pyUpper line))])
    rw [if_pos h]
  unfold InputParagraph.update_list
  rw [hs]

theorem C5_witness :
    (InputParagraph.mk (some "Scene Heading") ["int. house - day"]).update_list [] =
      [] ++ [ScreenplayElement.slug (parse_emphasis (pyUpper "int. house - day"))] :=
  C5_slug_rule (some "Scene Heading") "int. house - day" [] (Or.inl rfl)

/-- C6: No cross-cue merge.  Two consecutive single-line character cues
append two distinct Dialog elements, each with an upper-cased trimmed
rich-text-parsed character and empty blocks; the second is never merged
into the first. -/
theorem C6_no_cross_cue_merge (c1 c2 : String) (acc : List ScreenplayElement) :
    runBlocks [(some "Character", [c1]), (some "Character", [c2])] acc =
      acc ++ [ScreenplayElement.dialog (Dialog.mk (parse_emphasis (pyUpper (pyStrip c1))) []),
        ScreenplayElement.dialog (Dialog.mk (parse_emphasis (pyUpper (pyStrip c2))) [])] := by
  rw [runBlocks_pair_cons, update_list_character c1 acc, runBlocks_pair_cons,
    update_list_character c2 (acc ++ [ScreenplayElement.dialog
      (Dialog.create (parse_emphasis (pyUpper (pyStrip c1))) [])]), runBlocks_nil]
  simp [Dialog.create]

/-- C7: Dialogue fallback when no Dialog precedes.  A `Dialogue` or
`Parenthetical` block arriving when the accumulator is empty or its last
element is not a Dialog becomes an Action containing the block's lines. -/
theorem C7_dialog_fallback_action (tag : Option String) (lines : List String)
    (acc : List ScreenplayElement)
    (htag : tag = some "Dialogue" ∨ tag = some "Parenthetical")
    (hlast : ∀ d, acc.getLast? ≠ some (ScreenplayElement.dialog d)) :
    (InputParagraph.mk tag lines).update_list acc =
      acc ++ [ScreenplayElement.action
        (lines.map (fun line => parse_emphasis (pyRStrip line)))] := by
  have hs := append_slug_eq_none (InputParagraph.mk tag lines) acc
    (by rcases htag with rfl | rfl <;> simp)
  have hc := append_character_eq_none (InputParagraph.mk tag lines) acc
    (by rcases htag with rfl | rfl <;> simp)
  have hd := append_dialog_eq_none_of_last (InputParagraph.mk tag lines) acc hlast
  have ht := append_transition_eq_none (InputParagraph.mk tag lines) acc
    (by rcases htag with rfl | rfl <;> simp)
  unfold InputParagraph.update_list
  rw [hs, hc, hd, ht]
  simp [InputParagraph.append_action, sequence_to_rich, List.map_map, Function.comp]

theorem C7_witness :
    (InputParagraph.mk (some "Parenthetical") ["(beat)"]).update_list [] =
      [] ++ [ScreenplayElement.action
        ((["(beat)"] : List String).map (fun line => parse_emphasis (pyRStrip line)))] :=
  C7_dialog_fallback_action (some "Parenthetical") ["(beat)"] [] (Or.inr rfl)
    (fun d h => by cases h)

/-- C8: Front-end paragraph extraction.  On a well-formed tree,
`parse_xml` skips the first structural paragraph and feeds, for each
remaining paragraph in document order, the typed block made of its type
attribute and its concatenated text-run content (missing or empty text
contributing the empty string) split on line breaks, to the classifier;
the result is a Screenplay with the fixed placeholder title and the
classifier's element sequence. -/
theorem C8_front_end_extraction (root : FDXRoot) :
    parse_xml (Except.ok root) =
      Except.ok (Screenplay.mk "UNTITLED DOCUMENT" (runBlocks (specTypedBlocks root) [])) := by
  unfold parse_xml parse_body
  have h := runBlocks_specTypedBlocks (root.paragraphs.drop 1) []
  unfold specTypedBlocks
  rw [h]

/-- C9: All-or-nothing conversion.  `parse` either propagates the
structural failure of the underlying tree, with no partial Screenplay, or
returns the complete Screenplay of the whole body; classification-level
anomalies never surface as errors. -/
theorem C9_all_or_nothing (source : Except String FDXRoot) :
    (∃ e, source = Except.error e ∧ parse source = Except.error e) ∨
    (∃ root, source = Except.ok root ∧
      parse source = Except.ok (Screenplay.mk "UNTITLED DOCUMENT" (parse_body root))) := by
  cases source with
  | ok root => exact Or.inr ⟨root, rfl, rfl⟩
  | error e => exact Or.inl ⟨e, rfl, rfl⟩

/-- C10: Tail-only mutation of the accumulator.  One classifier step
either appends exactly one element at the end, or pops exactly the last
element (which is then a Dialog) and pushes one replacement; all other
elements are untouched and the length changes by +1 or 0. -/
theorem C10_tail_only_mutation (tag : Option String) (lines : List String)
    (acc : List ScreenplayElement) :
    (∃ e, (InputParagraph.mk tag lines).update_list acc = acc ++ [e] ∧
      ((InputParagraph.mk tag lines).update_list acc).length = acc.length + 1) ∨
    (∃ d e, acc.getLast? = some (ScreenplayElement.dialog d) ∧
      (InputParagraph.mk tag lines).update_list acc = acc.dropLast ++ [e] ∧
      ((InputParagraph.mk tag lines).update_list acc).length = acc.length) := by
  unfold InputParagraph.update_list
  cases h1 : (InputParagraph.mk tag lines).append_slug acc with
  | some r =>
    obtain ⟨t, -, rfl⟩ := append_slug_some h1
    exact Or.inl ⟨_, rfl, by simp⟩
  | none =>
  cases h2 : (InputParagraph.mk tag lines).append_character acc with
  | some r =>
    obtain ⟨ch, -, rfl⟩ := append_character_some h2
    exact Or.inl ⟨_, rfl, by simp⟩
  | none =>
  cases h3 : (InputParagraph.mk tag lines).append_dialog acc with
  | some r =>
    obtain ⟨previous, hlast, rfl⟩ := append_dialog_some h3
    have hne : acc ≠ [] := by
      intro h0
      rw [h0] at hlast
      cases hlast
    refine Or.inr ⟨previous, _, hlast, rfl, ?_⟩
    have := List.length_pos.mpr hne
    simp only [List.length_append, List.length_dropLast, List.length_singleton]
    omega
  | none =>
  cases h4 : (InputParagraph.mk tag lines).append_transition acc with
  | some r =>
    obtain ⟨t, -, rfl⟩ := append_transition_some h4
    exact Or.inl ⟨_, rfl, by simp⟩
  | none =>
    exact Or.inl ⟨_, rfl, by simp [InputParagraph.append_action]⟩

end Screenplain
